import Mathlib

/-!
Verification of the `frost` lexer (`src/lexer/src/{span,tokens,lib}.rs`).

The Rust code is shallowly embedded at the level of characters: the source
text is a `List Char` and every offset (cursor, span endpoint) counts
characters, matching `peek`'s use of `chars().nth`.  `usize` offsets become
`Nat`.  Rust `panic!` — which aborts the tokenization attempt rather than
returning — is modelled by a dedicated result constructor `LexOut.panicked`,
kept distinct from ordinary token results.

One place in the source mixes the two unit systems: `read_keyword` and
`read_integer` slice `self.input[start..self.position]` with **byte**
indices even though `position` counts characters.  Both readings are
modelled: `Lexer.read_keyword`/`Lexer.read_integer` take the slice at char
level, and `Lexer.read_keyword_bytes`/`Lexer.read_integer_bytes` take it
byte-indexed via `byteSlice`, with `none` for the slice panic.  The two
agree exactly when every character before the cursor is ASCII
(`Lexer.read_keyword_bytes_ascii`), and diverge on reachable non-ASCII
inputs (`alpha_byte_slice_cex`, `read_integer_bytes_diverges`).

The scanning loops of `lib.rs` (`read_keyword`'s and `read_integer`'s
character loops and the line-comment loop inside `next_token`) and the
recursive `next_token` itself all advance the cursor before iterating, so
they are embedded structurally over a fuel argument that starts at the
number of unscanned characters (`input.length - position`); the fuel
adequacy theorem `Lexer.nextTokenF_adequate` and the per-arm unfolding
theorems (`Lexer.next_token_ws`, `Lexer.next_token_comment`, …) below
recover the source-shaped recursion equations, so nothing is lost by the
fueling.
-/

namespace Frost

/-- `span.rs`: half-open offset range `[start, end)`; the `end` field is
named `stop` here because `end` is a Lean keyword. -/
structure Span where
  start : Nat
  stop : Nat
  deriving DecidableEq, Repr

/-- `Span::new(start, end)`: no validation of `start ≤ end` is performed. -/
def Span.new (start stop : Nat) : Span := ⟨start, stop⟩

/-- `Span::len`: `self.end - self.start` on `usize`.  When `start > end` the
subtraction underflows (a panic in debug builds); that failure is modelled
as `none`. -/
def Span.len (s : Span) : Option Nat :=
  if s.start ≤ s.stop then some (s.stop - s.start) else none

/-- `Span::is_empty`: `self.start == self.end`. -/
def Span.is_empty (s : Span) : Bool := s.start == s.stop

/-- `tokens.rs`: the closed set of token kinds.  `If`, `Elif`, `Else` and
`Exponent` are declared but never produced by the scanner, exactly as in the
source. -/
inductive TokenKind where
  | Val
  | Var
  | Fn
  | If
  | Elif
  | Else
  | LParen
  | RParen
  | LBracket
  | RBracket
  | LBrace
  | RBrace
  | Comma
  | Colon
  | Assign
  | Plus
  | Minus
  | Multiply
  | Exponent
  | Divide
  | Modulus
  | Equals
  | NotEquals
  | LessThan
  | GreaterThan
  | LessThanOrEqual
  | GreaterThanOrEqual
  | And
  | Or
  | Not
  | Identifier (name : String)
  | IntLiteral (value : Int)
  | Eof
  deriving DecidableEq, Repr

/-- `tokens.rs`: a token is a kind together with its source span. -/
structure Token where
  kind : TokenKind
  pos : Span
  deriving DecidableEq, Repr

/-- `Token::new(kind, start, size)`: the span is `[start, start + size)`. -/
def Token.new (kind : TokenKind) (start size : Nat) : Token :=
  ⟨kind, Span.new start (start + size)⟩

/-- The `Display` implementation for `TokenKind` in `tokens.rs` (`IntLiteral`
renders the decimal form of its value; braces are written with `\x7b`/`\x7d`
escapes). -/
def TokenKind.display : TokenKind → String
  | .Val => "val"
  | .Var => "var"
  | .Fn => "fn"
  | .If => "if"
  | .Elif => "elif"
  | .Else => "else"
  | .LParen => "("
  | .RParen => ")"
  | .LBracket => "["
  | .RBracket => "]"
  | .LBrace => "\x7b"
  | .RBrace => "\x7d"
  | .Comma => ","
  | .Colon => ":"
  | .Assign => "="
  | .Plus => "+"
  | .Minus => "-"
  | .Multiply => "*"
  | .Exponent => "^"
  | .Divide => "/"
  | .Modulus => "%"
  | .Equals => "=="
  | .NotEquals => "!="
  | .LessThan => "<"
  | .GreaterThan => ">"
  | .LessThanOrEqual => "<="
  | .GreaterThanOrEqual => ">="
  | .And => "&&"
  | .Or => "||"
  | .Not => "!"
  | .Identifier name => name
  | .IntLiteral value => toString value
  | .Eof => "EOF"

/-- The kinds lexed from a fixed lexeme: everything except `Identifier`,
`IntLiteral` and the zero-length `Eof`. -/
def TokenKind.isFixed : TokenKind → Bool
  | .Identifier _ => false
  | .IntLiteral _ => false
  | .Eof => false
  | _ => true

/-- Rust `char::is_whitespace`: the Unicode `White_Space` code points. -/
def charIsWhitespace (c : Char) : Bool :=
  (9 ≤ c.toNat && c.toNat ≤ 13) || c.toNat == 32 || c.toNat == 133 ||
    c.toNat == 160 || c.toNat == 5760 || (8192 ≤ c.toNat && c.toNat ≤ 8202) ||
    c.toNat == 8232 || c.toNat == 8233 || c.toNat == 8239 ||
    c.toNat == 8287 || c.toNat == 12288

/-- The dispatch arm `'a'..='z' | 'A'..='Z'` (code points 97–122 and 65–90). -/
def isAsciiAlpha (c : Char) : Bool :=
  (97 ≤ c.toNat && c.toNat ≤ 122) || (65 ≤ c.toNat && c.toNat ≤ 90)

/-- The dispatch arm `'0'..='9'` and `char::is_digit(10)` (code points 48–57). -/
def isDigitChar (c : Char) : Bool :=
  48 ≤ c.toNat && c.toNat ≤ 57

/-- `read_keyword`'s character class `'a'..='z' | 'A'..='Z' | '0'..='9' | '_'`
(95 is `'_'`). -/
def isIdentChar (c : Char) : Bool :=
  isAsciiAlpha c || isDigitChar c || c.toNat == 95

/-- `lib.rs`: the lexer holds the source text and the cursor. -/
structure Lexer where
  input : List Char
  position : Nat
  deriving DecidableEq, Repr

/-- `Lexer::new`: cursor at 0. -/
def Lexer.new (input : String) : Lexer := ⟨input.data, 0⟩

/-- `Lexer::peek`: `self.input.chars().nth(self.position + offset)`. -/
def Lexer.peek (l : Lexer) (offset : Nat) : Option Char :=
  l.input[l.position + offset]?

/-- `Lexer::advance`: `self.position += count`, then clamped to the input
length (the source clamps with an `if`; `min` is the same). -/
def Lexer.advance (l : Lexer) (count : Nat) : Lexer :=
  { l with position := min (l.position + count) l.input.length }

/-- `Lexer::consume`: capture `start = position`, advance by `count`, return
`Token::new(kind, start, count)` together with the mutated lexer.  The
source's assertions (`count > 0`, `position + count ≤ len`) hold at every
internal call site, which has already validated its lookahead. -/
def Lexer.consume (l : Lexer) (kind : TokenKind) (count : Nat) : Token × Lexer :=
  (Token.new kind l.position count, l.advance count)

/-- The shared shape of the three source scanning loops
(`while let Some(ch) = self.peek(0) { if p(ch) { self.advance(1) } else { break } }`),
fueled: one unit of fuel per advanced character. -/
def Lexer.scanWhileF (p : Char → Bool) : Nat → Lexer → Lexer
  | 0, l => l
  | fuel + 1, l =>
    match l.peek 0 with
    | some ch => if p ch then Lexer.scanWhileF p fuel (l.advance 1) else l
    | none => l

/-- A source scanning loop, run with exactly the remaining input as fuel
(enough, because every iteration advances the cursor by one). -/
def Lexer.scanWhile (l : Lexer) (p : Char → Bool) : Lexer :=
  Lexer.scanWhileF p (l.input.length - l.position) l

/-- `Lexer::read_keyword`: scan the maximal `isIdentChar` run and return the
substring `input[start..self.position]` together with the mutated lexer.
The source slices the `String` with **byte** indices while `position` counts
**characters**; this definition takes the slice at character level, which is
what the source computes whenever every character before the cursor is
ASCII (`Lexer.read_keyword_bytes_ascii`).  The byte-indexed slice itself —
including its panic on a non-char-boundary index and its shifted capture
when multibyte characters precede the scan — is modelled faithfully by
`Lexer.read_keyword_bytes` below; see `alpha_byte_slice_cex` for concrete
divergences. -/
def Lexer.read_keyword (l : Lexer) : String × Lexer :=
  let l' := l.scanWhile isIdentChar
  (String.mk ((l.input.drop l.position).take (l'.position - l.position)), l')

/-- The decimal value of a digit string, as `str::parse::<isize>` computes it
for an all-digit input.  `isize` overflow is unhandled in the source (spec
§9 leaves it an open question), so the value is an unbounded `Int`. -/
def parseDigits (cs : List Char) : Int :=
  Int.ofNat (cs.foldl (fun a c => 10 * a + (c.toNat - 48)) 0)

/-- `Lexer::read_integer`: scan the maximal digit run and parse it.  Like
`read_keyword`, the source's slice `input[start..self.position]` is
byte-indexed; this definition takes it at character level, exact whenever
every character before the cursor is ASCII
(`Lexer.read_integer_bytes_ascii`); the byte-indexed slice is modelled by
`Lexer.read_integer_bytes`, which diverges on non-ASCII prefixes
(`read_integer_bytes_diverges`). -/
def Lexer.read_integer (l : Lexer) : Int × Lexer :=
  let l' := l.scanWhile isDigitChar
  (parseDigits ((l.input.drop l.position).take (l'.position - l.position)), l')

/-- The UTF-8 encoded length of one character, as Rust's `char::len_utf8`. -/
def charUtf8Len (c : Char) : Nat :=
  if c.toNat < 128 then 1
  else if c.toNat < 2048 then 2
  else if c.toNat < 65536 then 3
  else 4

/-- Drop the first `n` **bytes** of a character list's UTF-8 encoding;
`none` when `n` is not a character boundary (or past the end) — the
condition under which Rust's `&s[n..]` panics. -/
def byteDrop : List Char → Nat → Option (List Char)
  | cs, 0 => some cs
  | [], _ + 1 => none
  | c :: cs, n + 1 =>
    if charUtf8Len c ≤ n + 1 then byteDrop cs (n + 1 - charUtf8Len c) else none

/-- Take the first `n` **bytes** of a character list's UTF-8 encoding;
`none` when `n` is not a character boundary (or past the end). -/
def byteTake : List Char → Nat → Option (List Char)
  | _, 0 => some []
  | [], _ + 1 => none
  | c :: cs, n + 1 =>
    if charUtf8Len c ≤ n + 1 then
      match byteTake cs (n + 1 - charUtf8Len c) with
      | some r => some (c :: r)
      | none => none
    else none

/-- Rust's string slice `&s[a..b]` on the UTF-8 encoding of `cs`, decoded
back to characters: `none` models the slice panic (`a > b`, an index out of
range, or an index inside a multibyte character). -/
def byteSlice (cs : List Char) (a b : Nat) : Option (List Char) :=
  if a ≤ b then
    match byteDrop cs a with
    | some rest => byteTake rest (b - a)
    | none => none
  else none

/-- Byte-faithful `read_keyword`: the source's slice
`self.input[start..self.position]` with the char-counted cursor values used
as **byte** indices, exactly as the Rust code does; `none` is the slice
panic. -/
def Lexer.read_keyword_bytes (l : Lexer) : Option String × Lexer :=
  let l' := l.scanWhile isIdentChar
  ((byteSlice l.input l.position l'.position).map String.mk, l')

/-- Byte-faithful `read_integer`'s slice (before the `parse` step), with the
char-counted cursor values used as **byte** indices as in the source;
`none` is the slice panic. -/
def Lexer.read_integer_bytes (l : Lexer) : Option String × Lexer :=
  let l' := l.scanWhile isDigitChar
  ((byteSlice l.input l.position l'.position).map String.mk, l')

/-- Every character strictly before position `n` of `cs` is ASCII — the
condition under which char-counted offsets coincide with byte offsets. -/
def asciiTo (cs : List Char) (n : Nat) : Bool :=
  (cs.take n).all (fun c => c.toNat < 128)

/-- The line-comment loop inside `next_token`:
`while self.peek(0) != Some('\n') && self.peek(0).is_some() { self.advance(1) }`
— skip up to but excluding a newline or the end of input. -/
def Lexer.skipComment (l : Lexer) : Lexer :=
  l.scanWhile (fun c => !(c == '\n'))

/-- The outcome of one `next_token` call: a token plus the mutated lexer, or
a `panic!` (an abort of the tokenization attempt, not a return value in the
source) carrying the unexpected character and its offset. -/
inductive LexOut where
  | tok (t : Token) (l : Lexer)
  | panicked (ch : Char) (pos : Nat)
  deriving DecidableEq, Repr

/-- Wrap `consume`'s result as a `next_token` outcome. -/
def mkTok (p : Token × Lexer) : LexOut := .tok p.1 p.2

/-- `Lexer::next_token`, fueled: one unit of fuel per whitespace/comment
retry.  The fuel-0 arm can only be reached with the cursor at the end of
input (see `Lexer.next_token_eq`), where it coincides with the `Eof` arm.
The dispatch arms are in source order; all are mutually exclusive. -/
def Lexer.nextTokenF : Nat → Lexer → LexOut
  | 0, l => .tok (Token.new .Eof l.position 0) l
  | fuel + 1, l =>
    match l.peek 0 with
    | none => .tok (Token.new .Eof l.position 0) l
    | some ch =>
      if charIsWhitespace ch then Lexer.nextTokenF fuel (l.advance 1)
      else if ch = '(' then mkTok (l.consume .LParen 1)
      else if ch = ')' then mkTok (l.consume .RParen 1)
      else if ch = '[' then mkTok (l.consume .LBracket 1)
      else if ch = ']' then mkTok (l.consume .RBracket 1)
      else if ch = '{' then mkTok (l.consume .LBrace 1)
      else if ch = '}' then mkTok (l.consume .RBrace 1)
      else if ch = ',' then mkTok (l.consume .Comma 1)
      else if ch = ':' then mkTok (l.consume .Colon 1)
      else if ch = '=' then
        if l.peek 1 = some '=' then mkTok (l.consume .Equals 2)
        else mkTok (l.consume .Assign 1)
      else if ch = '+' then mkTok (l.consume .Plus 1)
      else if ch = '-' then mkTok (l.consume .Minus 1)
      else if ch = '*' then mkTok (l.consume .Multiply 1)
      else if ch = '/' then
        if l.peek 1 = some '/' then Lexer.nextTokenF fuel l.skipComment
        else mkTok (l.consume .Divide 1)
      else if ch = '%' then mkTok (l.consume .Modulus 1)
      else if ch = '<' then
        if l.peek 1 = some '=' then mkTok (l.consume .LessThanOrEqual 2)
        else mkTok (l.consume .LessThan 1)
      else if ch = '>' then
        if l.peek 1 = some '=' then mkTok (l.consume .GreaterThanOrEqual 2)
        else mkTok (l.consume .GreaterThan 1)
      else if ch = '&' then
        if l.peek 1 = some '&' then mkTok (l.consume .And 2)
        else .panicked ch l.position
      else if ch = '|' then
        if l.peek 1 = some '|' then mkTok (l.consume .Or 2)
        else .panicked ch l.position
      else if ch = '!' then
        if l.peek 1 = some '=' then mkTok (l.consume .NotEquals 2)
        else mkTok (l.consume .Not 1)
      else if isAsciiAlpha ch then
        let start := l.position
        let p := l.read_keyword
        if p.1 = "val" then .tok (Token.new .Val start 3) p.2
        else if p.1 = "var" then .tok (Token.new .Var start 3) p.2
        else if p.1 = "fn" then .tok (Token.new .Fn start 2) p.2
        else .tok (Token.new (.Identifier p.1) start p.1.length) p.2
      else if isDigitChar ch then
        let start := l.position
        let p := l.read_integer
        .tok (Token.new (.IntLiteral p.1) start (p.2.position - start)) p.2
      else .panicked ch l.position

/-- `Lexer::next_token`: run the fueled dispatch with the remaining input as
fuel (enough, because every retry strictly advances the cursor). -/
def Lexer.next_token (l : Lexer) : LexOut :=
  Lexer.nextTokenF (l.input.length - l.position) l

/-- The lead characters recognized by some dispatch arm of `next_token`
(whitespace, the listed punctuation and operator heads, letters, digits).
Any other lead character reaches the catch-all `panic!`. -/
def startsRule (c : Char) : Bool :=
  charIsWhitespace c || c == '(' || c == ')' || c == '[' || c == ']' ||
    c == '{' || c == '}' || c == ',' || c == ':' || c == '=' || c == '+' ||
    c == '-' || c == '*' || c == '/' || c == '%' || c == '<' || c == '>' ||
    c == '&' || c == '|' || c == '!' || isAsciiAlpha c || isDigitChar c

/-- Requesting tokens repeatedly (the tests' usage pattern and the spec's
"produce the full ordered token sequence"): collect tokens until `Eof` is
produced (inclusive) or a panic occurs, with fuel bounding the number of
`next_token` calls. -/
def Lexer.scanTokens (l : Lexer) : Nat → List Token × Option (Char × Nat)
  | 0 => ([], none)
  | fuel + 1 =>
    match l.next_token with
    | .tok t l' =>
      if t.kind = .Eof then ([t], none)
      else
        let r := l'.scanTokens fuel
        (t :: r.1, r.2)
    | .panicked c p => ([], some (c, p))

/-! ## Basic facts about the lexer primitives -/

theorem Lexer.pos_lt_of_peek {l : Lexer} {k : Nat} {c : Char} (h : l.peek k = some c) :
    l.position + k < l.input.length := by
  by_contra hn
  push_neg at hn
  rw [Lexer.peek, List.getElem?_eq_none hn] at h
  exact Option.noConfusion h

theorem Lexer.peek_none {l : Lexer} (h : l.input.length ≤ l.position) (k : Nat) :
    l.peek k = none :=
  List.getElem?_eq_none (by omega)

theorem Lexer.advance_input (l : Lexer) (count : Nat) :
    (l.advance count).input = l.input := rfl

theorem Lexer.advance_position (l : Lexer) (count : Nat) :
    (l.advance count).position = min (l.position + count) l.input.length := rfl

theorem Lexer.advance_position_eq {l : Lexer} {count : Nat}
    (h : l.position + count ≤ l.input.length) :
    (l.advance count).position = l.position + count := by
  rw [Lexer.advance_position]; omega

theorem slice_one {xs : List Char} {i : Nat} {c : Char} (h : xs[i]? = some c) :
    (xs.drop i).take 1 = [c] := by
  obtain ⟨hlt, hc⟩ := List.getElem?_eq_some.mp h
  rw [List.drop_eq_getElem_cons hlt]
  simp [hc]

theorem slice_two {xs : List Char} {i : Nat} {c d : Char}
    (h1 : xs[i]? = some c) (h2 : xs[i + 1]? = some d) :
    (xs.drop i).take 2 = [c, d] := by
  obtain ⟨hlt1, hc⟩ := List.getElem?_eq_some.mp h1
  obtain ⟨hlt2, hd⟩ := List.getElem?_eq_some.mp h2
  rw [List.drop_eq_getElem_cons hlt1, List.drop_eq_getElem_cons hlt2]
  simp [hc, hd]

/-! ## The scanning loops -/

theorem Lexer.scanWhileF_input (p : Char → Bool) :
    ∀ (fuel : Nat) (l : Lexer), (Lexer.scanWhileF p fuel l).input = l.input := by
  intro fuel
  induction fuel with
  | zero => intro l; rfl
  | succ n ih =>
    intro l
    simp only [Lexer.scanWhileF]
    rcases h : l.peek 0 with _ | c
    · rfl
    · by_cases hp : p c
      · simp [hp, ih (l.advance 1), Lexer.advance_input]
      · simp [hp]

theorem Lexer.scanWhileF_mono (p : Char → Bool) :
    ∀ (fuel : Nat) (l : Lexer), l.position ≤ (Lexer.scanWhileF p fuel l).position := by
  intro fuel
  induction fuel with
  | zero => intro l; exact Nat.le_refl _
  | succ n ih =>
    intro l
    simp only [Lexer.scanWhileF]
    rcases h : l.peek 0 with _ | c
    · exact Nat.le_refl _
    · by_cases hp : p c
      · have hlt : l.position < l.input.length := by
          have := Lexer.pos_lt_of_peek h; omega
        have h1 : (l.advance 1).position = l.position + 1 :=
          Lexer.advance_position_eq (by omega)
        have := ih (l.advance 1)
        simp only [hp, if_true]
        omega
      · simp [hp]

theorem Lexer.scanWhileF_le (p : Char → Bool) :
    ∀ (fuel : Nat) (l : Lexer), l.position ≤ l.input.length →
      (Lexer.scanWhileF p fuel l).position ≤ l.input.length := by
  intro fuel
  induction fuel with
  | zero => intro l hp; exact hp
  | succ n ih =>
    intro l hp
    simp only [Lexer.scanWhileF]
    rcases h : l.peek 0 with _ | c
    · exact hp
    · by_cases hpc : p c
      · have hlt : l.position < l.input.length := by
          have := Lexer.pos_lt_of_peek h; omega
        have h1 : (l.advance 1).position = l.position + 1 :=
          Lexer.advance_position_eq (by omega)
        have := ih (l.advance 1) (by rw [h1]; exact hlt)
        simpa [hpc] using this
      · simp [hpc, hp]

theorem Lexer.scanWhileF_chars (p : Char → Bool) :
    ∀ (fuel : Nat) (l : Lexer) (i : Nat), l.position ≤ i →
      i < (Lexer.scanWhileF p fuel l).position →
      ∃ c, l.input[i]? = some c ∧ p c = true := by
  intro fuel
  induction fuel with
  | zero => intro l i h1 h2; simp only [Lexer.scanWhileF] at h2; omega
  | succ n ih =>
    intro l i h1 h2
    simp only [Lexer.scanWhileF] at h2
    rcases h : l.peek 0 with _ | c
    · rw [h] at h2; simp at h2; omega
    · rw [h] at h2
      by_cases hpc : p c
      · have hlt : l.position < l.input.length := by
          have := Lexer.pos_lt_of_peek h; omega
        have hadv : (l.advance 1).position = l.position + 1 :=
          Lexer.advance_position_eq (by omega)
        rcases Nat.eq_or_lt_of_le h1 with he | hgt
        · exact ⟨c, by simpa [Lexer.peek, ← he] using h, hpc⟩
        · simp only [hpc, if_true] at h2
          have := ih (l.advance 1) i (by omega) h2
          simpa [Lexer.advance_input] using this
      · simp [hpc] at h2; omega

theorem Lexer.scanWhileF_stop (p : Char → Bool) :
    ∀ (fuel : Nat) (l : Lexer), l.input.length - l.position ≤ fuel →
      l.position ≤ l.input.length →
      (Lexer.scanWhileF p fuel l).peek 0 = none ∨
        ∃ c, (Lexer.scanWhileF p fuel l).peek 0 = some c ∧ p c = false := by
  intro fuel
  induction fuel with
  | zero =>
    intro l hm hp
    simp only [Lexer.scanWhileF]
    exact Or.inl (Lexer.peek_none (by omega) 0)
  | succ n ih =>
    intro l hm hp
    simp only [Lexer.scanWhileF]
    rcases h : l.peek 0 with _ | c
    · exact Or.inl (by simpa using h)
    · by_cases hpc : p c
      · have hlt : l.position < l.input.length := by
          have := Lexer.pos_lt_of_peek h; omega
        have hadv : (l.advance 1).position = l.position + 1 :=
          Lexer.advance_position_eq (by omega)
        have := ih (l.advance 1)
          (by rw [Lexer.advance_input, hadv]; omega)
          (by rw [Lexer.advance_input, hadv]; omega)
        simpa [hpc] using this
      · exact Or.inr ⟨c, by simpa [hpc] using h, by simpa using hpc⟩

theorem Lexer.scanWhile_input (l : Lexer) (p : Char → Bool) :
    (l.scanWhile p).input = l.input :=
  Lexer.scanWhileF_input p _ l

theorem Lexer.scanWhile_mono (l : Lexer) (p : Char → Bool) :
    l.position ≤ (l.scanWhile p).position :=
  Lexer.scanWhileF_mono p _ l

theorem Lexer.scanWhile_le {l : Lexer} (p : Char → Bool)
    (hp : l.position ≤ l.input.length) :
    (l.scanWhile p).position ≤ l.input.length :=
  Lexer.scanWhileF_le p _ l hp

theorem Lexer.scanWhile_chars {l : Lexer} {p : Char → Bool} {i : Nat}
    (h1 : l.position ≤ i) (h2 : i < (l.scanWhile p).position) :
    ∃ c, l.input[i]? = some c ∧ p c = true :=
  Lexer.scanWhileF_chars p _ l i h1 h2

theorem Lexer.scanWhile_stop {l : Lexer} (p : Char → Bool)
    (hp : l.position ≤ l.input.length) :
    (l.scanWhile p).peek 0 = none ∨
      ∃ c, (l.scanWhile p).peek 0 = some c ∧ p c = false :=
  Lexer.scanWhileF_stop p _ l (Nat.le_refl _) hp

theorem Lexer.scanWhile_strict {l : Lexer} {p : Char → Bool} {c : Char}
    (h : l.peek 0 = some c) (hpc : p c = true) :
    l.position + 1 ≤ (l.scanWhile p).position := by
  have hlt : l.position < l.input.length := by
    have := Lexer.pos_lt_of_peek h; omega
  have hadv : (l.advance 1).position = l.position + 1 :=
    Lexer.advance_position_eq (by omega)
  rw [Lexer.scanWhile]
  rcases e : l.input.length - l.position with _ | k
  · omega
  · simp only [Lexer.scanWhileF, h, hpc, if_true]
    have := Lexer.scanWhileF_mono p k (l.advance 1)
    omega

/-! ## `read_keyword` and `read_integer` -/

theorem Lexer.read_keyword_snd (l : Lexer) :
    (l.read_keyword).2 = l.scanWhile isIdentChar := rfl

theorem Lexer.read_keyword_data (l : Lexer) :
    (l.read_keyword).1.data =
      (l.input.drop l.position).take ((l.scanWhile isIdentChar).position - l.position) := rfl

theorem Lexer.read_keyword_length {l : Lexer} (hp : l.position ≤ l.input.length) :
    (l.read_keyword).1.length = (l.scanWhile isIdentChar).position - l.position := by
  have h1 : (l.scanWhile isIdentChar).position ≤ l.input.length :=
    Lexer.scanWhile_le _ hp
  have h2 : l.position ≤ (l.scanWhile isIdentChar).position := Lexer.scanWhile_mono l _
  show (String.mk ((l.input.drop l.position).take
    ((l.scanWhile isIdentChar).position - l.position))).length = _
  simp only [String.length, List.length_take, List.length_drop]
  omega

theorem Lexer.read_integer_snd (l : Lexer) :
    (l.read_integer).2 = l.scanWhile isDigitChar := rfl

/-! ## The byte-indexed slices and when they agree with the char level -/

theorem isIdentChar_ascii {c : Char} (h : isIdentChar c = true) :
    c.toNat < 128 := by
  simp only [isIdentChar, isAsciiAlpha, isDigitChar, Bool.or_eq_true,
    Bool.and_eq_true, decide_eq_true_eq, beq_iff_eq] at h
  omega

theorem isDigitChar_ascii {c : Char} (h : isDigitChar c = true) :
    c.toNat < 128 := by
  simp only [isDigitChar, Bool.and_eq_true, decide_eq_true_eq] at h
  omega

theorem asciiTo_index {cs : List Char} {n : Nat} (h : asciiTo cs n = true) :
    ∀ i, i < n → ∀ d, cs[i]? = some d → d.toNat < 128 := by
  intro i hi d hd
  have h1 : (cs.take n)[i]? = some d := by
    rw [List.getElem?_take_of_lt hi]
    exact hd
  have h2 : d ∈ cs.take n := List.mem_iff_getElem?.mpr ⟨i, h1⟩
  have h3 := List.all_eq_true.mp h d h2
  simpa using h3

theorem byteDrop_ascii :
    ∀ (cs : List Char) (n : Nat),
      (∀ i, i < n → ∀ d, cs[i]? = some d → d.toNat < 128) → n ≤ cs.length →
      byteDrop cs n = some (cs.drop n) := by
  intro cs
  induction cs with
  | nil =>
    intro n _ hn
    cases n with
    | zero => rfl
    | succ m => simp at hn
  | cons c rest ih =>
    intro n hH hn
    cases n with
    | zero => rfl
    | succ m =>
      have hc : c.toNat < 128 := hH 0 (by omega) c (by simp)
      have hlen : charUtf8Len c = 1 := by rw [charUtf8Len, if_pos hc]
      simp only [byteDrop, hlen]
      rw [if_pos (by omega)]
      have hr := ih m (fun i hi d hd => hH (i + 1) (by omega) d (by simpa using hd))
        (by simpa using hn)
      simpa using hr

theorem byteTake_ascii :
    ∀ (cs : List Char) (n : Nat),
      (∀ i, i < n → ∀ d, cs[i]? = some d → d.toNat < 128) → n ≤ cs.length →
      byteTake cs n = some (cs.take n) := by
  intro cs
  induction cs with
  | nil =>
    intro n _ hn
    cases n with
    | zero => rfl
    | succ m => simp at hn
  | cons c rest ih =>
    intro n hH hn
    cases n with
    | zero => rfl
    | succ m =>
      have hc : c.toNat < 128 := hH 0 (by omega) c (by simp)
      have hlen : charUtf8Len c = 1 := by rw [charUtf8Len, if_pos hc]
      simp only [byteTake, hlen]
      rw [if_pos (by omega)]
      have hr := ih m (fun i hi d hd => hH (i + 1) (by omega) d (by simpa using hd))
        (by simpa using hn)
      simp only [Nat.add_sub_cancel] at hr ⊢
      rw [hr]
      simp

theorem byteSlice_ascii {cs : List Char} {a b : Nat} (hab : a ≤ b)
    (hb : b ≤ cs.length)
    (hH : ∀ i, i < b → ∀ d, cs[i]? = some d → d.toNat < 128) :
    byteSlice cs a b = some ((cs.drop a).take (b - a)) := by
  rw [byteSlice, if_pos hab,
    byteDrop_ascii cs a (fun i hi d hd => hH i (by omega) d hd) (by omega)]
  show byteTake (cs.drop a) (b - a) = some ((cs.drop a).take (b - a))
  apply byteTake_ascii
  · intro i hi d hd
    rw [List.getElem?_drop] at hd
    exact hH (a + i) (by omega) d hd
  · simp only [List.length_drop]
    omega

/-- With only ASCII characters before the cursor, the source's byte-indexed
keyword slice computes exactly the char-level slice: `read_keyword` is the
program there. -/
theorem Lexer.read_keyword_bytes_ascii {l : Lexer} {c : Char}
    (h : l.peek 0 = some c) (ha : asciiTo l.input l.position = true) :
    (l.read_keyword_bytes).1 = some (l.read_keyword).1 ∧
    (l.read_keyword_bytes).2 = (l.read_keyword).2 := by
  have hp : l.position ≤ l.input.length := by
    have := Lexer.pos_lt_of_peek h; omega
  have hmono : l.position ≤ (l.scanWhile isIdentChar).position :=
    Lexer.scanWhile_mono l _
  have hle : (l.scanWhile isIdentChar).position ≤ l.input.length :=
    Lexer.scanWhile_le _ hp
  have hH : ∀ i, i < (l.scanWhile isIdentChar).position →
      ∀ d, l.input[i]? = some d → d.toNat < 128 := by
    intro i hi d hd
    rcases Nat.lt_or_ge i l.position with hlt | hge
    · exact asciiTo_index ha i hlt d hd
    · obtain ⟨e, he, hie⟩ := Lexer.scanWhile_chars hge hi
      rw [hd] at he
      cases he
      exact isIdentChar_ascii hie
  constructor
  · show (byteSlice l.input l.position
      (l.scanWhile isIdentChar).position).map String.mk = some (l.read_keyword).1
    rw [byteSlice_ascii hmono hle hH]
    rfl
  · rfl

/-- The digit-run analogue of `Lexer.read_keyword_bytes_ascii`. -/
theorem Lexer.read_integer_bytes_ascii {l : Lexer} {c : Char}
    (h : l.peek 0 = some c) (ha : asciiTo l.input l.position = true) :
    (l.read_integer_bytes).1 =
      some (String.mk ((l.input.drop l.position).take
        ((l.scanWhile isDigitChar).position - l.position))) ∧
    (l.read_integer_bytes).2 = (l.read_integer).2 := by
  have hp : l.position ≤ l.input.length := by
    have := Lexer.pos_lt_of_peek h; omega
  have hmono : l.position ≤ (l.scanWhile isDigitChar).position :=
    Lexer.scanWhile_mono l _
  have hle : (l.scanWhile isDigitChar).position ≤ l.input.length :=
    Lexer.scanWhile_le _ hp
  have hH : ∀ i, i < (l.scanWhile isDigitChar).position →
      ∀ d, l.input[i]? = some d → d.toNat < 128 := by
    intro i hi d hd
    rcases Nat.lt_or_ge i l.position with hlt | hge
    · exact asciiTo_index ha i hlt d hd
    · obtain ⟨e, he, hie⟩ := Lexer.scanWhile_chars hge hi
      rw [hd] at he
      cases he
      exact isDigitChar_ascii hie
  constructor
  · show (byteSlice l.input l.position
      (l.scanWhile isDigitChar).position).map String.mk = _
    rw [byteSlice_ascii hmono hle hH]
    rfl
  · rfl

/-- On `"\u{00A0}12"` (two-byte whitespace, then digits) the source's
byte-indexed integer slice `input[1..3]` falls inside the multibyte
character and panics, while the char-level reading would return 12. -/
theorem read_integer_bytes_diverges :
    ((⟨"\u00A012".data, 1⟩ : Lexer).read_integer_bytes).1 = none ∧
    ((⟨"\u00A012".data, 1⟩ : Lexer).read_integer).1 = 12 := by decide

/-! ## Fuel adequacy for `next_token` -/

theorem Lexer.nextTokenF_adequate :
    ∀ (fuel fuel' : Nat) (l : Lexer), l.input.length - l.position ≤ fuel →
      l.input.length - l.position ≤ fuel' →
      Lexer.nextTokenF fuel l = Lexer.nextTokenF fuel' l := by
  intro fuel
  induction fuel with
  | zero =>
    intro fuel' l hm _
    have hpk : l.peek 0 = none := Lexer.peek_none (by omega) 0
    rcases fuel' with _ | k
    · rfl
    · simp [Lexer.nextTokenF, hpk]
  | succ n ih =>
    intro fuel' l hm hm'
    rcases fuel' with _ | k
    · have hpk : l.peek 0 = none := Lexer.peek_none (by omega) 0
      simp [Lexer.nextTokenF, hpk]
    · rcases hpk : l.peek 0 with _ | c
      · simp [Lexer.nextTokenF, hpk]
      · have hlt : l.position < l.input.length := by
          have := Lexer.pos_lt_of_peek hpk; omega
        have hadv : (l.advance 1).position = l.position + 1 :=
          Lexer.advance_position_eq (by omega)
        have e1 : Lexer.nextTokenF n (l.advance 1) = Lexer.nextTokenF k (l.advance 1) :=
          ih k (l.advance 1)
            (by rw [Lexer.advance_input, hadv]; omega)
            (by rw [Lexer.advance_input, hadv]; omega)
        simp only [Lexer.nextTokenF, hpk]
        rw [e1]
        by_cases hsl : c = '/'
        · by_cases hp1 : l.peek 1 = some '/'
          · have hskip : l.position + 1 ≤ (l.skipComment).position := by
              apply Lexer.scanWhile_strict hpk
              rw [hsl]; decide
            have hsi : (l.skipComment).input = l.input := Lexer.scanWhile_input l _
            have e2 : Lexer.nextTokenF n l.skipComment = Lexer.nextTokenF k l.skipComment :=
              ih k l.skipComment (by rw [hsi]; omega) (by rw [hsi]; omega)
            rw [e2]
          · rw [if_neg hp1, if_neg hp1]
        · rw [if_neg hsl, if_neg hsl]

theorem Lexer.next_token_fueled (l : Lexer) {fuel : Nat}
    (h : l.input.length - l.position ≤ fuel) :
    l.next_token = Lexer.nextTokenF fuel l :=
  Lexer.nextTokenF_adequate _ fuel l (Nat.le_refl _) h

/-! ## Character-class facts -/

theorem isAsciiAlpha_iff {c : Char} :
    isAsciiAlpha c = true ↔
      (97 ≤ c.toNat ∧ c.toNat ≤ 122) ∨ (65 ≤ c.toNat ∧ c.toNat ≤ 90) := by
  simp [isAsciiAlpha]

theorem charIsWhitespace_iff {c : Char} :
    charIsWhitespace c = true ↔
      ((9 ≤ c.toNat ∧ c.toNat ≤ 13) ∨ c.toNat = 32 ∨ c.toNat = 133 ∨
        c.toNat = 160 ∨ c.toNat = 5760 ∨ (8192 ≤ c.toNat ∧ c.toNat ≤ 8202) ∨
        c.toNat = 8232 ∨ c.toNat = 8233 ∨ c.toNat = 8239 ∨ c.toNat = 8287 ∨
        c.toNat = 12288) := by
  simp [charIsWhitespace]
  omega

theorem isDigitChar_iff {c : Char} :
    isDigitChar c = true ↔ 48 ≤ c.toNat ∧ c.toNat ≤ 57 := by
  simp [isDigitChar]

/-- An ASCII-alphabetic lead character fails every guard of `next_token`'s
dispatch chain that precedes the identifier/keyword arm. -/
theorem alpha_guards {c : Char} (ha : isAsciiAlpha c = true) :
    charIsWhitespace c = false ∧ c ≠ '(' ∧ c ≠ ')' ∧ c ≠ '[' ∧ c ≠ ']' ∧
      c ≠ '{' ∧ c ≠ '}' ∧ c ≠ ',' ∧ c ≠ ':' ∧ c ≠ '=' ∧ c ≠ '+' ∧ c ≠ '-' ∧
      c ≠ '*' ∧ c ≠ '/' ∧ c ≠ '%' ∧ c ≠ '<' ∧ c ≠ '>' ∧ c ≠ '&' ∧ c ≠ '|' ∧
      c ≠ '!' := by
  refine ⟨?_, ?_, ?_, ?_, ?_, ?_, ?_, ?_, ?_, ?_, ?_, ?_, ?_, ?_, ?_, ?_, ?_,
    ?_, ?_, ?_⟩
  · rw [Bool.eq_false_iff]
    intro hw
    have h1 := isAsciiAlpha_iff.mp ha
    have h2 := charIsWhitespace_iff.mp hw
    omega
  all_goals rintro rfl
  all_goals revert ha
  all_goals decide

/-! ## The dispatch arms of `next_token` -/

theorem Lexer.next_token_at_end {l : Lexer} (h : l.input.length ≤ l.position) :
    l.next_token = .tok (Token.new .Eof l.position 0) l := by
  rw [Lexer.next_token]
  have e : l.input.length - l.position = 0 := by omega
  rw [e]
  rfl

/-- Rule 2: a whitespace lead character is skipped and dispatch retries. -/
theorem Lexer.next_token_ws {l : Lexer} {c : Char} (h : l.peek 0 = some c)
    (hw : charIsWhitespace c = true) :
    l.next_token = (l.advance 1).next_token := by
  have hlt : l.position < l.input.length := by
    have := Lexer.pos_lt_of_peek h; omega
  have hadv : (l.advance 1).position = l.position + 1 :=
    Lexer.advance_position_eq (by omega)
  rw [Lexer.next_token]
  rcases e : l.input.length - l.position with _ | k
  · omega
  · simp only [Lexer.nextTokenF, h]
    rw [if_pos hw]
    exact (Lexer.next_token_fueled _ (by rw [Lexer.advance_input, hadv]; omega)).symm

/-- Rule 6, comment case: `//` discards up to (excluding) the newline and
dispatch retries from the new cursor, emitting nothing for the comment. -/
theorem Lexer.next_token_comment {l : Lexer} (h : l.peek 0 = some '/')
    (h1 : l.peek 1 = some '/') :
    l.next_token = (l.skipComment).next_token := by
  have hlt : l.position < l.input.length := by
    have := Lexer.pos_lt_of_peek h; omega
  have hskip : l.position + 1 ≤ (l.skipComment).position :=
    Lexer.scanWhile_strict h (by decide)
  have hsi : (l.skipComment).input = l.input := Lexer.scanWhile_input l _
  rw [Lexer.next_token]
  rcases e : l.input.length - l.position with _ | k
  · omega
  · simp only [Lexer.nextTokenF, h]
    have hfin : (l.skipComment).next_token = Lexer.nextTokenF k l.skipComment :=
      Lexer.next_token_fueled _ (by rw [hsi]; omega)
    rw [hfin]
    simp [h1, (by decide : charIsWhitespace '/' = false)]

/-- Rule 6, division case: `/` not followed by `/` emits `Divide`, length 1. -/
theorem Lexer.next_token_divide {l : Lexer} (h : l.peek 0 = some '/')
    (h1 : l.peek 1 ≠ some '/') :
    l.next_token = .tok (Token.new .Divide l.position 1) (l.advance 1) := by
  have hlt : l.position < l.input.length := by
    have := Lexer.pos_lt_of_peek h; omega
  rw [Lexer.next_token]
  rcases e : l.input.length - l.position with _ | k
  · omega
  · simp only [Lexer.nextTokenF, h]
    simp [h1, mkTok, Lexer.consume, (by decide : charIsWhitespace '/' = false)]

/-- Rule 8: a lone `&` (no second `&`) hits the `panic!`. -/
theorem Lexer.next_token_amp {l : Lexer} (h : l.peek 0 = some '&')
    (h1 : l.peek 1 ≠ some '&') :
    l.next_token = .panicked '&' l.position := by
  have hlt : l.position < l.input.length := by
    have := Lexer.pos_lt_of_peek h; omega
  rw [Lexer.next_token]
  rcases e : l.input.length - l.position with _ | k
  · omega
  · simp only [Lexer.nextTokenF, h]
    simp [h1, (by decide : charIsWhitespace '&' = false)]

/-- Rule 9: a lone `|` (no second `|`) hits the `panic!`. -/
theorem Lexer.next_token_pipe {l : Lexer} (h : l.peek 0 = some '|')
    (h1 : l.peek 1 ≠ some '|') :
    l.next_token = .panicked '|' l.position := by
  have hlt : l.position < l.input.length := by
    have := Lexer.pos_lt_of_peek h; omega
  rw [Lexer.next_token]
  rcases e : l.input.length - l.position with _ | k
  · omega
  · simp only [Lexer.nextTokenF, h]
    simp [h1, (by decide : charIsWhitespace '|' = false)]

/-- A character that starts no dispatch rule fails every guard. -/
theorem startsRule_eq_false_iff {c : Char} :
    startsRule c = false ↔
      charIsWhitespace c = false ∧ c ≠ '(' ∧ c ≠ ')' ∧ c ≠ '[' ∧ c ≠ ']' ∧
        c ≠ '{' ∧ c ≠ '}' ∧ c ≠ ',' ∧ c ≠ ':' ∧ c ≠ '=' ∧ c ≠ '+' ∧ c ≠ '-' ∧
        c ≠ '*' ∧ c ≠ '/' ∧ c ≠ '%' ∧ c ≠ '<' ∧ c ≠ '>' ∧ c ≠ '&' ∧ c ≠ '|' ∧
        c ≠ '!' ∧ isAsciiAlpha c = false ∧ isDigitChar c = false := by
  simp only [startsRule, Bool.or_eq_false_iff, beq_eq_false_iff_ne, ne_eq]
  tauto

/-- Rule 13: a lead character recognized by no dispatch rule hits the
catch-all `panic!`. -/
theorem Lexer.next_token_other {l : Lexer} {c : Char} (h : l.peek 0 = some c)
    (hs : startsRule c = false) :
    l.next_token = .panicked c l.position := by
  have hlt : l.position < l.input.length := by
    have := Lexer.pos_lt_of_peek h; omega
  obtain ⟨gw, g1, g2, g3, g4, g5, g6, g7, g8, g9, g10, g11, g12, g13, g14,
    g15, g16, g17, g18, g19, gal, gdg⟩ := startsRule_eq_false_iff.mp hs
  rw [Lexer.next_token]
  rcases e : l.input.length - l.position with _ | k
  · omega
  · simp only [Lexer.nextTokenF, h]
    simp [gw, g1, g2, g3, g4, g5, g6, g7, g8, g9, g10, g11, g12, g13, g14,
      g15, g16, g17, g18, g19, gal, gdg]

/-- Rule 11: an ASCII-alphabetic lead character scans `read_keyword` and
emits the matching keyword token or an `Identifier`. -/
theorem Lexer.next_token_alpha {l : Lexer} {c : Char} (h : l.peek 0 = some c)
    (ha : isAsciiAlpha c = true) :
    l.next_token =
      (if (l.read_keyword).1 = "val" then
        .tok (Token.new .Val l.position 3) (l.read_keyword).2
      else if (l.read_keyword).1 = "var" then
        .tok (Token.new .Var l.position 3) (l.read_keyword).2
      else if (l.read_keyword).1 = "fn" then
        .tok (Token.new .Fn l.position 2) (l.read_keyword).2
      else
        .tok (Token.new (.Identifier (l.read_keyword).1) l.position
          (l.read_keyword).1.length) (l.read_keyword).2) := by
  have hlt : l.position < l.input.length := by
    have := Lexer.pos_lt_of_peek h; omega
  obtain ⟨gw, g1, g2, g3, g4, g5, g6, g7, g8, g9, g10, g11, g12, g13, g14,
    g15, g16, g17, g18, g19⟩ := alpha_guards ha
  rw [Lexer.next_token]
  rcases e : l.input.length - l.position with _ | k
  · omega
  · simp only [Lexer.nextTokenF, h]
    rw [if_neg (by simp [gw]), if_neg g1, if_neg g2, if_neg g3, if_neg g4,
      if_neg g5, if_neg g6, if_neg g7, if_neg g8, if_neg g9, if_neg g10,
      if_neg g11, if_neg g12, if_neg g13, if_neg g14, if_neg g15, if_neg g16,
      if_neg g17, if_neg g18, if_neg g19, if_pos ha]

/-! ## The per-call invariant of `next_token` -/

/-- What one successful `next_token` call guarantees: the input is untouched,
the token's span lies in the region consumed by the call (ending exactly at
the new cursor, which never passes the end of input), and a fixed-lexeme
token's span covers exactly the canonical symbol of its kind. -/
def NextTokenOk (l : Lexer) (t : Token) (l' : Lexer) : Prop :=
  l'.input = l.input ∧
  l.position ≤ t.pos.start ∧
  t.pos.start ≤ t.pos.stop ∧
  t.pos.stop = l'.position ∧
  l'.position ≤ l.input.length ∧
  (t.kind.isFixed = true →
    (l.input.drop t.pos.start).take (t.pos.stop - t.pos.start) = t.kind.display.data)

theorem eof_ok {l : Lexer} (hp : l.position ≤ l.input.length) :
    NextTokenOk l (Token.new .Eof l.position 0) l := by
  refine ⟨rfl, ?_, ?_, ?_, hp, ?_⟩
  · simp [Token.new, Span.new]
  · simp [Token.new, Span.new]
  · simp [Token.new, Span.new]
  · intro hfix
    simp [Token.new, TokenKind.isFixed] at hfix

/-- A whitespace or comment skip only moves the cursor forward inside the
same input, so the invariant transfers back across the skip. -/
theorem ok_of_skip {l m : Lexer} {t : Token} {l' : Lexer}
    (hm : m.input = l.input) (hpos : l.position ≤ m.position)
    (hok : NextTokenOk m t l') : NextTokenOk l t l' := by
  obtain ⟨a, b, c, d, e, f⟩ := hok
  refine ⟨by rw [a, hm], by omega, c, d, ?_, ?_⟩
  · rw [hm] at e; exact e
  · rw [hm] at f; exact f

theorem consume1_ok {l : Lexer} {c : Char} {kind : TokenKind}
    (h : l.peek 0 = some c) (hd : kind.display.data = [c]) :
    NextTokenOk l (Token.new kind l.position 1) (l.advance 1) := by
  have hlt : l.position < l.input.length := by
    have := Lexer.pos_lt_of_peek h; omega
  have hadv : (l.advance 1).position = l.position + 1 :=
    Lexer.advance_position_eq (by omega)
  have hg : l.input[l.position]? = some c := by
    rw [Lexer.peek] at h; simpa using h
  refine ⟨rfl, ?_, ?_, ?_, ?_, ?_⟩
  · simp [Token.new, Span.new]
  · simp [Token.new, Span.new]
  · simp [Token.new, Span.new, hadv]
  · rw [hadv]; omega
  · intro _
    simp only [Token.new, Span.new]
    have h1 : l.position + 1 - l.position = 1 := by omega
    rw [h1, slice_one hg, hd]

theorem consume2_ok {l : Lexer} {c d : Char} {kind : TokenKind}
    (h : l.peek 0 = some c) (h2 : l.peek 1 = some d)
    (hd : kind.display.data = [c, d]) :
    NextTokenOk l (Token.new kind l.position 2) (l.advance 2) := by
  have hlt : l.position + 1 < l.input.length := Lexer.pos_lt_of_peek h2
  have hadv : (l.advance 2).position = l.position + 2 :=
    Lexer.advance_position_eq (by omega)
  have hg : l.input[l.position]? = some c := by
    rw [Lexer.peek] at h; simpa using h
  have hg2 : l.input[l.position + 1]? = some d := h2
  refine ⟨rfl, ?_, ?_, ?_, ?_, ?_⟩
  · simp [Token.new, Span.new]
  · simp [Token.new, Span.new]
  · simp [Token.new, Span.new, hadv]
  · rw [hadv]; omega
  · intro _
    simp only [Token.new, Span.new]
    have h1 : l.position + 2 - l.position = 2 := by omega
    rw [h1, slice_two hg hg2, hd]

theorem keyword_ok {l : Lexer} {s : String} {size : Nat} {kind : TokenKind}
    (hp : l.position ≤ l.input.length) (hv : (l.read_keyword).1 = s)
    (hlen : s.length = size) (hdisp : kind.display = s) :
    NextTokenOk l (Token.new kind l.position size) (l.read_keyword).2 := by
  have hmono : l.position ≤ (l.scanWhile isIdentChar).position :=
    Lexer.scanWhile_mono l _
  have hle : (l.scanWhile isIdentChar).position ≤ l.input.length :=
    Lexer.scanWhile_le _ hp
  have hklen := Lexer.read_keyword_length hp
  rw [hv, hlen] at hklen
  have hsz : (l.scanWhile isIdentChar).position = l.position + size := by omega
  refine ⟨Lexer.scanWhile_input l _, ?_, ?_, ?_, ?_, ?_⟩
  · simp [Token.new, Span.new]
  · simp [Token.new, Span.new]
  · rw [Lexer.read_keyword_snd]
    simp [Token.new, Span.new, hsz]
  · rw [Lexer.read_keyword_snd, hsz]; omega
  · intro _
    simp only [Token.new, Span.new]
    have h1 : l.position + size - l.position = size := by omega
    rw [h1, hdisp, ← hv, Lexer.read_keyword_data, hsz]
    have h2 : l.position + size - l.position = size := by omega
    rw [h2]

theorem identifier_ok {l : Lexer} (hp : l.position ≤ l.input.length) :
    NextTokenOk l
      (Token.new (.Identifier (l.read_keyword).1) l.position
        (l.read_keyword).1.length)
      (l.read_keyword).2 := by
  have hmono : l.position ≤ (l.scanWhile isIdentChar).position :=
    Lexer.scanWhile_mono l _
  have hle : (l.scanWhile isIdentChar).position ≤ l.input.length :=
    Lexer.scanWhile_le _ hp
  have hklen := Lexer.read_keyword_length hp
  refine ⟨Lexer.scanWhile_input l _, ?_, ?_, ?_, ?_, ?_⟩
  · simp [Token.new, Span.new]
  · simp [Token.new, Span.new]
  · rw [Lexer.read_keyword_snd]
    simp [Token.new, Span.new, hklen]
    omega
  · rw [Lexer.read_keyword_snd]; exact hle
  · intro hfix
    simp [Token.new, TokenKind.isFixed] at hfix

theorem intlit_ok {l : Lexer} (hp : l.position ≤ l.input.length) :
    NextTokenOk l
      (Token.new (.IntLiteral (l.read_integer).1) l.position
        ((l.read_integer).2.position - l.position))
      (l.read_integer).2 := by
  have hmono : l.position ≤ (l.scanWhile isDigitChar).position :=
    Lexer.scanWhile_mono l _
  have hle : (l.scanWhile isDigitChar).position ≤ l.input.length :=
    Lexer.scanWhile_le _ hp
  refine ⟨Lexer.scanWhile_input l _, ?_, ?_, ?_, ?_, ?_⟩
  · simp [Token.new, Span.new]
  · simp [Token.new, Span.new]
  · rw [Lexer.read_integer_snd]
    simp [Token.new, Span.new]
    omega
  · rw [Lexer.read_integer_snd]; exact hle
  · intro hfix
    simp [Token.new, TokenKind.isFixed] at hfix

/-! ## The master invariant proof -/

set_option maxHeartbeats 1000000 in
theorem Lexer.nextTokenF_ok :
    ∀ (fuel : Nat) (l : Lexer), l.input.length - l.position ≤ fuel →
      l.position ≤ l.input.length →
      ∀ t l', Lexer.nextTokenF fuel l = .tok t l' → NextTokenOk l t l' := by
  intro fuel
  induction fuel with
  | zero =>
    intro l hm hp t l' heq
    simp only [Lexer.nextTokenF] at heq
    injection heq with ht hl
    subst ht
    subst hl
    exact eof_ok hp
  | succ n ih =>
    intro l hm hp t l' heq
    rcases h0 : l.peek 0 with _ | ch
    · simp only [Lexer.nextTokenF, h0] at heq
      injection heq with ht hl
      subst ht
      subst hl
      exact eof_ok hp
    · simp only [Lexer.nextTokenF, h0] at heq
      by_cases hc1 : charIsWhitespace ch = true
      · rw [if_pos hc1] at heq
        have hlt : l.position < l.input.length := by
          have := Lexer.pos_lt_of_peek h0
          omega
        have hadv : (l.advance 1).position = l.position + 1 :=
          Lexer.advance_position_eq (by omega)
        refine ok_of_skip (Lexer.advance_input l 1) (by rw [hadv]; omega)
          (ih (l.advance 1) ?_ ?_ t l' heq)
        · rw [Lexer.advance_input, hadv]
          omega
        · rw [Lexer.advance_input, hadv]
          omega
      · rw [if_neg hc1] at heq
        by_cases hc2 : ch = '('
        · rw [if_pos hc2] at heq
          subst hc2
          simp only [mkTok, Lexer.consume] at heq
          injection heq with ht hl
          subst ht
          subst hl
          exact consume1_ok h0 (by decide)
        · rw [if_neg hc2] at heq
          by_cases hc3 : ch = ')'
          · rw [if_pos hc3] at heq
            subst hc3
            simp only [mkTok, Lexer.consume] at heq
            injection heq with ht hl
            subst ht
            subst hl
            exact consume1_ok h0 (by decide)
          · rw [if_neg hc3] at heq
            by_cases hc4 : ch = '['
            · rw [if_pos hc4] at heq
              subst hc4
              simp only [mkTok, Lexer.consume] at heq
              injection heq with ht hl
              subst ht
              subst hl
              exact consume1_ok h0 (by decide)
            · rw [if_neg hc4] at heq
              by_cases hc5 : ch = ']'
              · rw [if_pos hc5] at heq
                subst hc5
                simp only [mkTok, Lexer.consume] at heq
                injection heq with ht hl
                subst ht
                subst hl
                exact consume1_ok h0 (by decide)
              · rw [if_neg hc5] at heq
                by_cases hc6 : ch = '{'
                · rw [if_pos hc6] at heq
                  subst hc6
                  simp only [mkTok, Lexer.consume] at heq
                  injection heq with ht hl
                  subst ht
                  subst hl
                  exact consume1_ok h0 (by decide)
                · rw [if_neg hc6] at heq
                  by_cases hc7 : ch = '}'
                  · rw [if_pos hc7] at heq
                    subst hc7
                    simp only [mkTok, Lexer.consume] at heq
                    injection heq with ht hl
                    subst ht
                    subst hl
                    exact consume1_ok h0 (by decide)
                  · rw [if_neg hc7] at heq
                    by_cases hc8 : ch = ','
                    · rw [if_pos hc8] at heq
                      subst hc8
                      simp only [mkTok, Lexer.consume] at heq
                      injection heq with ht hl
                      subst ht
                      subst hl
                      exact consume1_ok h0 (by decide)
                    · rw [if_neg hc8] at heq
                      by_cases hc9 : ch = ':'
                      · rw [if_pos hc9] at heq
                        subst hc9
                        simp only [mkTok, Lexer.consume] at heq
                        injection heq with ht hl
                        subst ht
                        subst hl
                        exact consume1_ok h0 (by decide)
                      · rw [if_neg hc9] at heq
                        by_cases hc10 : ch = '='
                        · rw [if_pos hc10] at heq
                          by_cases hq : l.peek 1 = some '='
                          · rw [if_pos hq] at heq
                            subst hc10
                            simp only [mkTok, Lexer.consume] at heq
                            injection heq with ht hl
                            subst ht
                            subst hl
                            exact consume2_ok h0 hq (by decide)
                          · rw [if_neg hq] at heq
                            subst hc10
                            simp only [mkTok, Lexer.consume] at heq
                            injection heq with ht hl
                            subst ht
                            subst hl
                            exact consume1_ok h0 (by decide)
                        · rw [if_neg hc10] at heq
                          by_cases hc11 : ch = '+'
                          · rw [if_pos hc11] at heq
                            subst hc11
                            simp only [mkTok, Lexer.consume] at heq
                            injection heq with ht hl
                            subst ht
                            subst hl
                            exact consume1_ok h0 (by decide)
                          · rw [if_neg hc11] at heq
                            by_cases hc12 : ch = '-'
                            · rw [if_pos hc12] at heq
                              subst hc12
                              simp only [mkTok, Lexer.consume] at heq
                              injection heq with ht hl
                              subst ht
                              subst hl
                              exact consume1_ok h0 (by decide)
                            · rw [if_neg hc12] at heq
                              by_cases hc13 : ch = '*'
                              · rw [if_pos hc13] at heq
                                subst hc13
                                simp only [mkTok, Lexer.consume] at heq
                                injection heq with ht hl
                                subst ht
                                subst hl
                                exact consume1_ok h0 (by decide)
                              · rw [if_neg hc13] at heq
                                by_cases hc14 : ch = '/'
                                · rw [if_pos hc14] at heq
                                  by_cases hq : l.peek 1 = some '/'
                                  · rw [if_pos hq] at heq
                                    subst hc14
                                    have hlt : l.position < l.input.length := by
                                      have := Lexer.pos_lt_of_peek h0
                                      omega
                                    have hskip : l.position + 1 ≤ (l.skipComment).position :=
                                      Lexer.scanWhile_strict h0 (by decide)
                                    have hsi : (l.skipComment).input = l.input := Lexer.scanWhile_input l _
                                    have hsle : (l.skipComment).position ≤ l.input.length :=
                                      Lexer.scanWhile_le _ hp
                                    refine ok_of_skip hsi (by omega) (ih l.skipComment ?_ ?_ t l' heq)
                                    · rw [hsi]
                                      omega
                                    · rw [hsi]
                                      omega
                                  · rw [if_neg hq] at heq
                                    subst hc14
                                    simp only [mkTok, Lexer.consume] at heq
                                    injection heq with ht hl
                                    subst ht
                                    subst hl
                                    exact consume1_ok h0 (by decide)
                                · rw [if_neg hc14] at heq
                                  by_cases hc15 : ch = '%'
                                  · rw [if_pos hc15] at heq
                                    subst hc15
                                    simp only [mkTok, Lexer.consume] at heq
                                    injection heq with ht hl
                                    subst ht
                                    subst hl
                                    exact consume1_ok h0 (by decide)
                                  · rw [if_neg hc15] at heq
                                    by_cases hc16 : ch = '<'
                                    · rw [if_pos hc16] at heq
                                      by_cases hq : l.peek 1 = some '='
                                      · rw [if_pos hq] at heq
                                        subst hc16
                                        simp only [mkTok, Lexer.consume] at heq
                                        injection heq with ht hl
                                        subst ht
                                        subst hl
                                        exact consume2_ok h0 hq (by decide)
                                      · rw [if_neg hq] at heq
                                        subst hc16
                                        simp only [mkTok, Lexer.consume] at heq
                                        injection heq with ht hl
                                        subst ht
                                        subst hl
                                        exact consume1_ok h0 (by decide)
                                    · rw [if_neg hc16] at heq
                                      by_cases hc17 : ch = '>'
                                      · rw [if_pos hc17] at heq
                                        by_cases hq : l.peek 1 = some '='
                                        · rw [if_pos hq] at heq
                                          subst hc17
                                          simp only [mkTok, Lexer.consume] at heq
                                          injection heq with ht hl
                                          subst ht
                                          subst hl
                                          exact consume2_ok h0 hq (by decide)
                                        · rw [if_neg hq] at heq
                                          subst hc17
                                          simp only [mkTok, Lexer.consume] at heq
                                          injection heq with ht hl
                                          subst ht
                                          subst hl
                                          exact consume1_ok h0 (by decide)
                                      · rw [if_neg hc17] at heq
                                        by_cases hc18 : ch = '&'
                                        · rw [if_pos hc18] at heq
                                          by_cases hq : l.peek 1 = some '&'
                                          · rw [if_pos hq] at heq
                                            subst hc18
                                            simp only [mkTok, Lexer.consume] at heq
                                            injection heq with ht hl
                                            subst ht
                                            subst hl
                                            exact consume2_ok h0 hq (by decide)
                                          · rw [if_neg hq] at heq
                                            exact LexOut.noConfusion heq
                                        · rw [if_neg hc18] at heq
                                          by_cases hc19 : ch = '|'
                                          · rw [if_pos hc19] at heq
                                            by_cases hq : l.peek 1 = some '|'
                                            · rw [if_pos hq] at heq
                                              subst hc19
                                              simp only [mkTok, Lexer.consume] at heq
                                              injection heq with ht hl
                                              subst ht
                                              subst hl
                                              exact consume2_ok h0 hq (by decide)
                                            · rw [if_neg hq] at heq
                                              exact LexOut.noConfusion heq
                                          · rw [if_neg hc19] at heq
                                            by_cases hc20 : ch = '!'
                                            · rw [if_pos hc20] at heq
                                              by_cases hq : l.peek 1 = some '='
                                              · rw [if_pos hq] at heq
                                                subst hc20
                                                simp only [mkTok, Lexer.consume] at heq
                                                injection heq with ht hl
                                                subst ht
                                                subst hl
                                                exact consume2_ok h0 hq (by decide)
                                              · rw [if_neg hq] at heq
                                                subst hc20
                                                simp only [mkTok, Lexer.consume] at heq
                                                injection heq with ht hl
                                                subst ht
                                                subst hl
                                                exact consume1_ok h0 (by decide)
                                            · rw [if_neg hc20] at heq
                                              by_cases hc21 : isAsciiAlpha ch = true
                                              · rw [if_pos hc21] at heq
                                                by_cases hv : (l.read_keyword).1 = "val"
                                                · rw [if_pos hv] at heq
                                                  injection heq with ht hl
                                                  subst ht
                                                  subst hl
                                                  exact keyword_ok hp hv (by decide) (by decide)
                                                · rw [if_neg hv] at heq
                                                  by_cases hv2 : (l.read_keyword).1 = "var"
                                                  · rw [if_pos hv2] at heq
                                                    injection heq with ht hl
                                                    subst ht
                                                    subst hl
                                                    exact keyword_ok hp hv2 (by decide) (by decide)
                                                  · rw [if_neg hv2] at heq
                                                    by_cases hv3 : (l.read_keyword).1 = "fn"
                                                    · rw [if_pos hv3] at heq
                                                      injection heq with ht hl
                                                      subst ht
                                                      subst hl
                                                      exact keyword_ok hp hv3 (by decide) (by decide)
                                                    · rw [if_neg hv3] at heq
                                                      injection heq with ht hl
                                                      subst ht
                                                      subst hl
                                                      exact identifier_ok hp
                                              · rw [if_neg hc21] at heq
                                                by_cases hc22 : isDigitChar ch = true
                                                · rw [if_pos hc22] at heq
                                                  injection heq with ht hl
                                                  subst ht
                                                  subst hl
                                                  exact intlit_ok hp
                                                · rw [if_neg hc22] at heq
                                                  exact LexOut.noConfusion heq

/-- The master invariant, at the `next_token` entry point. -/
theorem Lexer.next_token_ok {l : Lexer} (hp : l.position ≤ l.input.length)
    {t : Token} {l' : Lexer} (heq : l.next_token = .tok t l') :
    NextTokenOk l t l' :=
  Lexer.nextTokenF_ok _ l (Nat.le_refl _) hp t l' heq

/-- Whether one `next_token` outcome is a token (as opposed to a `panic!`). -/
def LexOut.isToken : LexOut → Bool
  | .tok _ _ => true
  | .panicked _ _ => false

/-! ## Claim theorems -/

/-- C1 (counterexample): on the one-character input `"&"`, `next_token` does
not surface a recoverable error value — it hits `panic!` (modelled by the
`LexOut.panicked` constructor, an abort of the tokenization attempt distinct
from every token result), so the tokenization aborts uncontrolled instead of
returning, refuting the claim as stated.  The panic does carry `'&'` and
offset `0`. -/
theorem amp_alone_panics_cex :
    ((Lexer.new "&").next_token).isToken = false ∧
    (Lexer.new "&").next_token = .panicked '&' 0 := by decide

/-- C1 (amended): on malformed input — a lone `&`, a lone `|`, or a lead
character matching no dispatch rule — `next_token` aborts with a `panic!`
carrying the offending character and its offset (it does not return a
recoverable error value, and no token is produced); in particular on `"&"`
it panics with `('&', 0)`. -/
theorem malformed_input_panics :
    (∀ l : Lexer, l.peek 0 = some '&' → l.peek 1 ≠ some '&' →
      l.next_token = .panicked '&' l.position) ∧
    (∀ l : Lexer, l.peek 0 = some '|' → l.peek 1 ≠ some '|' →
      l.next_token = .panicked '|' l.position) ∧
    (∀ (l : Lexer) (c : Char), l.peek 0 = some c → startsRule c = false →
      l.next_token = .panicked c l.position) ∧
    (Lexer.new "&").next_token = .panicked '&' 0 :=
  ⟨fun _ h h1 => Lexer.next_token_amp h h1,
   fun _ h h1 => Lexer.next_token_pipe h h1,
   fun _ _ h hs => Lexer.next_token_other h hs,
   by decide⟩

/-- C1 (witness): the amended theorem applied at the concrete input `"#x"`,
whose lead character starts no rule. -/
theorem malformed_input_panics_witness :
    ((Lexer.new "#x").peek 0 = some '#' ∧ startsRule '#' = false) ∧
    (Lexer.new "#x").next_token = .panicked '#' 0 :=
  ⟨⟨by decide, by decide⟩,
    malformed_input_panics.2.2.1 (Lexer.new "#x") '#' (by decide) (by decide)⟩

/-- C2: scanning `"val x = 5"` from a fresh lexer yields exactly
`Val@[0,3)`, `Identifier "x"@[4,5)`, `Assign@[6,7)`, `IntLiteral 5@[8,9)`,
`Eof@[9,9)` (spans written as `Token.new kind start size`, i.e.
`[start, start+size)`), and no panic occurs. -/
theorem scan_val_x_eq_5_tokens :
    (Lexer.new "val x = 5").scanTokens 10 =
      ([Token.new .Val 0 3, Token.new (.Identifier "x") 4 1,
        Token.new .Assign 6 1, Token.new (.IntLiteral 5) 8 1,
        Token.new .Eof 9 0], none) := by decide

/-- C3: on empty input the first `next_token` call returns exactly the token
`Eof` with span `[0,0)`; and for every lexer whose cursor has reached the end
of input, `next_token` returns `Eof` with a zero-length span at the cursor
and leaves the lexer (hence the cursor) unchanged, so post-Eof calls are
idempotent. -/
theorem eof_idempotent :
    ((Lexer.new "").next_token = .tok (Token.new .Eof 0 0) (Lexer.new "")) ∧
    ∀ l : Lexer, l.input.length ≤ l.position →
      l.next_token = .tok (Token.new .Eof l.position 0) l := by
  constructor
  · decide
  · intro l h
    exact Lexer.next_token_at_end h

/-- C3 (witness): the theorem applied to a concrete lexer at end of input. -/
theorem eof_idempotent_witness :
    (⟨['a'], 1⟩ : Lexer).input.length ≤ (⟨['a'], 1⟩ : Lexer).position ∧
    (⟨['a'], 1⟩ : Lexer).next_token = .tok (Token.new .Eof 1 0) ⟨['a'], 1⟩ :=
  ⟨by decide, eof_idempotent.2 ⟨['a'], 1⟩ (by decide)⟩

/-- C4 (counterexample): U+00A0 is Unicode whitespace encoded in two UTF-8
bytes, so a fresh lexer on `"\u00A0ab"` reaches cursor 1 (characters) with
the alphabetic lead `'a'`; the source's byte-indexed slice `input[1..3]`
then starts inside the multibyte character and panics — the byte-faithful
`read_keyword_bytes` returns `none` — so the program emits no
`Identifier("ab")` there, refuting the claim's universally quantified
emission (which the char-level `read_keyword` would satisfy).  On
`"\u00A0\u00A0ab"` the slice is byte-aligned but shifted: the source
captures `"\u00A0"`, not the scanned run `"ab"`. -/
theorem alpha_byte_slice_cex :
    charIsWhitespace '\u00A0' = true ∧
    (Lexer.new "\u00A0ab").advance 1 = (⟨"\u00A0ab".data, 1⟩ : Lexer) ∧
    (⟨"\u00A0ab".data, 1⟩ : Lexer).peek 0 = some 'a' ∧
    isAsciiAlpha 'a' = true ∧
    ((⟨"\u00A0ab".data, 1⟩ : Lexer).read_keyword_bytes).1 = none ∧
    ((⟨"\u00A0ab".data, 1⟩ : Lexer).read_keyword).1 = "ab" ∧
    ((⟨"\u00A0\u00A0ab".data, 2⟩ : Lexer).read_keyword_bytes).1 =
      some "\u00A0" ∧
    ((⟨"\u00A0\u00A0ab".data, 2⟩ : Lexer).read_keyword).1 = "ab" := by
  decide

/-- C4 (amended): when every character before the cursor is ASCII — so that
the char-counted cursor agrees with the source's byte indexing, as on every
all-ASCII input — an ASCII-alphabetic lead character makes the byte-indexed
keyword slice compute exactly the char-level `read_keyword` text, and
`read_keyword` scans the maximal run of `[A-Za-z0-9_]` characters (every
scanned character is in the class and the run stops only at end of input or
at a character outside the class), and `next_token` emits `Val`/`Var`/`Fn`
with span length 3/3/2 when the captured text is exactly
`"val"`/`"var"`/`"fn"`, and otherwise an `Identifier` holding the captured
text with span length equal to the text's length. -/
theorem alpha_scans_keyword_or_identifier_ascii :
    ∀ (l : Lexer) (c : Char), l.peek 0 = some c → isAsciiAlpha c = true →
      asciiTo l.input l.position = true →
      ((l.read_keyword_bytes).1 = some (l.read_keyword).1 ∧
        (l.read_keyword_bytes).2 = (l.read_keyword).2) ∧
      (l.position ≤ (l.read_keyword).2.position ∧
        (l.read_keyword).2.position ≤ l.input.length ∧
        (∀ i, l.position ≤ i → i < (l.read_keyword).2.position →
          ∃ d, l.input[i]? = some d ∧ isIdentChar d = true) ∧
        ((l.read_keyword).2.position = l.input.length ∨
          ∃ d, l.input[(l.read_keyword).2.position]? = some d ∧
            isIdentChar d = false)) ∧
      ((l.read_keyword).1 = "val" →
        l.next_token = .tok (Token.new .Val l.position 3) (l.read_keyword).2) ∧
      ((l.read_keyword).1 = "var" →
        l.next_token = .tok (Token.new .Var l.position 3) (l.read_keyword).2) ∧
      ((l.read_keyword).1 = "fn" →
        l.next_token = .tok (Token.new .Fn l.position 2) (l.read_keyword).2) ∧
      ((l.read_keyword).1 ≠ "val" → (l.read_keyword).1 ≠ "var" →
        (l.read_keyword).1 ≠ "fn" →
        l.next_token = .tok
          (Token.new (.Identifier (l.read_keyword).1) l.position
            (l.read_keyword).1.length) (l.read_keyword).2) := by
  intro l c h ha hascii
  have hp : l.position ≤ l.input.length := by
    have := Lexer.pos_lt_of_peek h; omega
  have harm := Lexer.next_token_alpha h ha
  refine ⟨Lexer.read_keyword_bytes_ascii h hascii, ?_, ?_, ?_, ?_, ?_⟩
  · rw [Lexer.read_keyword_snd]
    refine ⟨Lexer.scanWhile_mono l _, Lexer.scanWhile_le _ hp, ?_, ?_⟩
    · intro i h1 h2
      exact Lexer.scanWhile_chars h1 h2
    · rcases Lexer.scanWhile_stop (l := l) isIdentChar hp with hn | ⟨d, hd, hpd⟩
      · left
        have h1 : (l.scanWhile isIdentChar).input = l.input :=
          Lexer.scanWhile_input l _
        rw [Lexer.peek, h1] at hn
        have h2 := List.getElem?_eq_none_iff.mp hn
        have h3 := Lexer.scanWhile_le (l := l) isIdentChar hp
        omega
      · right
        have h1 : (l.scanWhile isIdentChar).input = l.input :=
          Lexer.scanWhile_input l _
        rw [Lexer.peek, h1] at hd
        exact ⟨d, by simpa using hd, hpd⟩
  · intro hv
    rw [harm, if_pos hv]
  · intro hv
    rw [harm, if_neg (by rw [hv]; decide), if_pos hv]
  · intro hv
    rw [harm, if_neg (by rw [hv]; decide), if_neg (by rw [hv]; decide),
      if_pos hv]
  · intro hv1 hv2 hv3
    rw [harm, if_neg hv1, if_neg hv2, if_neg hv3]

/-- C4 (witness): the amended theorem applied at `"val x"` — all-ASCII, so
the ASCII-prefix hypothesis holds — whose captured text is exactly
`"val"`. -/
theorem alpha_scans_keyword_or_identifier_ascii_witness :
    ((Lexer.new "val x").peek 0 = some 'v' ∧ isAsciiAlpha 'v' = true ∧
      asciiTo (Lexer.new "val x").input (Lexer.new "val x").position = true ∧
      ((Lexer.new "val x").read_keyword).1 = "val") ∧
    (Lexer.new "val x").next_token =
      .tok (Token.new .Val 0 3) ((Lexer.new "val x").read_keyword).2 :=
  ⟨⟨by decide, by decide, by decide, by decide⟩,
    (alpha_scans_keyword_or_identifier_ascii (Lexer.new "val x") 'v'
      (by decide) (by decide) (by decide)).2.2.1 (by decide)⟩

/-- C5: at `//` the lexer discards every character up to but excluding the
next newline (or end of input) and retries dispatch from the new cursor,
emitting no token for the comment; at `/` not followed by `/` it emits
`Divide` with span length 1; and Scenario C's input produces the kinds of
Scenario A twice over (for `x = 5` and `y = 10`) with the comment fully
discarded. -/
theorem comment_skip_spec :
    (∀ l : Lexer, l.peek 0 = some '/' → l.peek 1 = some '/' →
      l.next_token = (l.skipComment).next_token ∧
      l.position ≤ (l.skipComment).position ∧
      (∀ i, l.position ≤ i → i < (l.skipComment).position →
        ∃ d, l.input[i]? = some d ∧ d ≠ '\n') ∧
      ((l.skipComment).peek 0 = none ∨ (l.skipComment).peek 0 = some '\n')) ∧
    (∀ l : Lexer, l.peek 0 = some '/' → l.peek 1 ≠ some '/' →
      l.next_token = .tok (Token.new .Divide l.position 1) (l.advance 1)) ∧
    ((Lexer.new "val x = 5 // comment\nval y = 10").scanTokens 20).1.map
      Token.kind =
      [.Val, .Identifier "x", .Assign, .IntLiteral 5,
       .Val, .Identifier "y", .Assign, .IntLiteral 10, .Eof] := by
  refine ⟨?_, ?_, by decide⟩
  · intro l h h1
    have hp : l.position ≤ l.input.length := by
      have := Lexer.pos_lt_of_peek h; omega
    refine ⟨Lexer.next_token_comment h h1, Lexer.scanWhile_mono l _, ?_, ?_⟩
    · intro i hi1 hi2
      obtain ⟨d, hd, hpd⟩ := Lexer.scanWhile_chars hi1 hi2
      exact ⟨d, hd, by simpa using hpd⟩
    · rcases Lexer.scanWhile_stop (l := l) (fun c => !(c == '\n')) hp with
        hn | ⟨d, hd, hpd⟩
      · exact Or.inl hn
      · have : d = '\n' := by simpa using hpd
        exact Or.inr (this ▸ hd)
  · intro l h h1
    exact Lexer.next_token_divide h h1

/-- C5 (witness): the theorem applied at the concrete lexer sitting on the
`//` of Scenario C's input (cursor 10), and at `"a/b"`'s slash (cursor 1). -/
theorem comment_skip_spec_witness :
    ((⟨"val x = 5 // comment\nval y = 10".data, 10⟩ : Lexer).peek 0 =
        some '/' ∧
      (⟨"val x = 5 // comment\nval y = 10".data, 10⟩ : Lexer).peek 1 =
        some '/') ∧
    (⟨"val x = 5 // comment\nval y = 10".data, 10⟩ : Lexer).next_token =
      ((⟨"val x = 5 // comment\nval y = 10".data, 10⟩ : Lexer).skipComment
        ).next_token ∧
    (⟨"a/b".data, 1⟩ : Lexer).next_token =
      .tok (Token.new .Divide 1 1) ((⟨"a/b".data, 1⟩ : Lexer).advance 1) :=
  ⟨⟨by decide, by decide⟩,
    (comment_skip_spec.1 (⟨"val x = 5 // comment\nval y = 10".data, 10⟩ :
      Lexer) (by decide) (by decide)).1,
    comment_skip_spec.2.1 (⟨"a/b".data, 1⟩ : Lexer) (by decide) (by decide)⟩

/-- C6: a fresh lexer's cursor is 0; and from any state with
`position ≤ input.length`, every operation (`advance`, `consume`, and a
token-returning `next_token` call — `peek` is a pure function and does not
touch the state) keeps the cursor within `0 ≤ cursor ≤ length(text)` and
never decreases it; the input text itself is never modified. -/
theorem cursor_bounded_monotone :
    (∀ s : String, (Lexer.new s).position = 0) ∧
    ∀ l : Lexer, l.position ≤ l.input.length →
      (∀ count, l.position ≤ (l.advance count).position ∧
        (l.advance count).position ≤ l.input.length) ∧
      (∀ kind count, l.position ≤ ((l.consume kind count).2).position ∧
        ((l.consume kind count).2).position ≤ l.input.length) ∧
      (∀ t l', l.next_token = .tok t l' →
        l.position ≤ l'.position ∧ l'.position ≤ l'.input.length ∧
        l'.input = l.input) := by
  refine ⟨fun _ => rfl, ?_⟩
  intro l hp
  refine ⟨?_, ?_, ?_⟩
  · intro count
    rw [Lexer.advance_position]
    omega
  · intro kind count
    show l.position ≤ (l.advance count).position ∧
      (l.advance count).position ≤ l.input.length
    rw [Lexer.advance_position]
    omega
  · intro t l' heq
    obtain ⟨hi, h2, h3, h4, h5, _⟩ := Lexer.next_token_ok hp heq
    refine ⟨by omega, ?_, hi⟩
    rw [hi]
    omega

/-- C6 (witness): the theorem applied to the concrete lexer on `"val"`. -/
theorem cursor_bounded_monotone_witness :
    (Lexer.new "val").position ≤ (Lexer.new "val").input.length ∧
    (Lexer.new "val").position ≤ ((Lexer.new "val").advance 2).position ∧
    ((Lexer.new "val").advance 2).position ≤ (Lexer.new "val").input.length :=
  ⟨by decide,
    ((cursor_bounded_monotone.2 (Lexer.new "val") (by decide)).1 2).1,
    ((cursor_bounded_monotone.2 (Lexer.new "val") (by decide)).1 2).2⟩

/-- C8: the whitespace skip and the comment skip each strictly advance the
cursor, so the remaining-input measure strictly decreases before dispatch is
retried — the recursion of `next_token` is well-founded on that measure
(indeed `next_token` is realized here as a total function over it) — and
every call returns either a token or the panic outcome. -/
theorem next_token_total_skips_strict :
    (∀ (l : Lexer) (c : Char), l.peek 0 = some c →
      charIsWhitespace c = true →
      l.position < (l.advance 1).position ∧
      l.input.length - (l.advance 1).position <
        l.input.length - l.position) ∧
    (∀ l : Lexer, l.peek 0 = some '/' → l.peek 1 = some '/' →
      l.position < (l.skipComment).position ∧
      l.input.length - (l.skipComment).position <
        l.input.length - l.position) ∧
    (∀ l : Lexer, (∃ t l', l.next_token = .tok t l') ∨
      ∃ c p, l.next_token = .panicked c p) := by
  refine ⟨?_, ?_, ?_⟩
  · intro l c h _
    have hlt : l.position < l.input.length := by
      have := Lexer.pos_lt_of_peek h; omega
    rw [Lexer.advance_position]
    omega
  · intro l h _
    have hlt : l.position < l.input.length := by
      have := Lexer.pos_lt_of_peek h; omega
    have hskip : l.position + 1 ≤ (l.skipComment).position :=
      Lexer.scanWhile_strict h (by decide)
    omega
  · intro l
    rcases heq : l.next_token with ⟨t, l'⟩ | ⟨c, p⟩
    · exact Or.inl ⟨t, l', rfl⟩
    · exact Or.inr ⟨c, p, rfl⟩

/-- C8 (witness): the theorem applied at a whitespace character and at a
comment opener. -/
theorem next_token_total_skips_strict_witness :
    ((Lexer.new " a").peek 0 = some ' ' ∧ charIsWhitespace ' ' = true) ∧
    (Lexer.new " a").position < ((Lexer.new " a").advance 1).position ∧
    (Lexer.new "//x").position < ((Lexer.new "//x").skipComment).position :=
  ⟨⟨by decide, by decide⟩,
    (next_token_total_skips_strict.1 (Lexer.new " a") ' '
      (by decide) (by decide)).1,
    (next_token_total_skips_strict.2.1 (Lexer.new "//x")
      (by decide) (by decide)).1⟩

/-- C9 (counterexample): `Span::new` is public and performs no validation,
so `Span::new(5, 3)` is constructible through the public interface, violates
`start ≤ end`, and its `len()` underflows (the model returns `none` where
the Rust `usize` subtraction would panic in a debug build) — refuting the
claim that every publicly constructible span satisfies the invariant with
`len` well-defined. -/
theorem span_new_no_invariant_cex :
    ¬ ((Span.new 5 3).start ≤ (Span.new 5 3).stop) ∧
    (Span.new 5 3).len = none := by decide

/-- C9 (amended): `Span::new` does not enforce `start ≤ end`, so the
invariant holds only for spans built with `start ≤ end`: for those, `len`
is well-defined and equals `end - start`; `is_empty` is true exactly when
`start = end` (for every span); and every span the lexer itself builds via
`Token::new(kind, start, size)` satisfies `start ≤ end`. -/
theorem span_len_is_empty_spec :
    (∀ s : Span, s.start ≤ s.stop → s.len = some (s.stop - s.start)) ∧
    (∀ s : Span, s.is_empty = true ↔ s.start = s.stop) ∧
    (∀ (kind : TokenKind) (start size : Nat),
      (Token.new kind start size).pos.start ≤
        (Token.new kind start size).pos.stop) := by
  refine ⟨?_, ?_, ?_⟩
  · intro s h
    rw [Span.len, if_pos h]
  · intro s
    simp [Span.is_empty]
  · intro kind start size
    simp [Token.new, Span.new]

/-- C9 (witness): the amended theorem applied to the concrete span
`Span.new 5 10`. -/
theorem span_len_is_empty_spec_witness :
    (Span.new 5 10).start ≤ (Span.new 5 10).stop ∧
    (Span.new 5 10).len = some 5 :=
  ⟨by decide, span_len_is_empty_spec.1 (Span.new 5 10) (by decide)⟩

/-- C10: every token returned by `next_token` has its span inside the region
consumed by that call — `cursor-before ≤ span.start ≤ span.end` and
`span.end` equals the cursor after the call — hence the spans of successive
tokens are in non-decreasing order and never overlap. -/
theorem token_spans_in_consumed_region :
    ∀ l : Lexer, l.position ≤ l.input.length →
      (∀ t l', l.next_token = .tok t l' →
        l.position ≤ t.pos.start ∧ t.pos.start ≤ t.pos.stop ∧
        t.pos.stop = l'.position) ∧
      (∀ t l' u l'', l.next_token = .tok t l' → l'.next_token = .tok u l'' →
        t.pos.stop ≤ u.pos.start) := by
  intro l hp
  constructor
  · intro t l' heq
    have h := Lexer.next_token_ok hp heq
    exact ⟨h.2.1, h.2.2.1, h.2.2.2.1⟩
  · intro t l' u l'' heq1 heq2
    have h1 := Lexer.next_token_ok hp heq1
    have hp2 : l'.position ≤ l'.input.length := by
      rw [h1.1]
      exact h1.2.2.2.2.1
    have h2 := Lexer.next_token_ok hp2 heq2
    calc t.pos.stop = l'.position := h1.2.2.2.1
      _ ≤ u.pos.start := h2.2.1

/-- C10 (witness): the theorem applied to the first token of `"1+2"`. -/
theorem token_spans_in_consumed_region_witness :
    (Lexer.new "1+2").position ≤ (Lexer.new "1+2").input.length ∧
    ((Lexer.new "1+2").position ≤ (Token.new (.IntLiteral 1) 0 1).pos.start ∧
      (Token.new (.IntLiteral 1) 0 1).pos.start ≤
        (Token.new (.IntLiteral 1) 0 1).pos.stop ∧
      (Token.new (.IntLiteral 1) 0 1).pos.stop =
        (⟨"1+2".data, 1⟩ : Lexer).position) :=
  ⟨by decide,
    (token_spans_in_consumed_region (Lexer.new "1+2") (by decide)).1
      (Token.new (.IntLiteral 1) 0 1) (⟨"1+2".data, 1⟩ : Lexer) (by decide)⟩

end Frost
